import Mathlib

/-
Shallow embedding of the minesweeper game engine (src/main.rs, src/error.rs).

Modelling conventions:
* usize values are Nat; an arithmetic underflow or an out-of-range vector
  access (which aborts the Rust process) is modelled by returning none, so
  every function that can abort returns an Option.
* The thread_rng choice made by Game::start is passed in explicitly as the
  list of unadjusted bomb indices that choose_multiple produced; a valid
  rng outcome is characterised by the predicate validSample.
* The move counter is a u8 in the source; it is modelled as a Nat whose
  every increment is taken modulo 256, the wrapping behaviour of the
  source's move_count += 1 in a release build (a debug build aborts at 255
  instead of wrapping; in neither build does the counter ever reach 256).
* The recursive flood fill clear_safe_square is written with an explicit
  fuel argument so that it is structurally recursive and kernel-computable;
  running out of fuel also yields none, and every theorem about a flood
  fill that returned some board is therefore about a run the Rust code
  performs as well.
-/

namespace Minesweeper

structure Position where
  x : Nat
  y : Nat
deriving DecidableEq

inductive SquareState where
  | Covered
  | Uncovered
  | Bomb
deriving DecidableEq

structure Board where
  squares : List SquareState
  height : Nat
  width : Nat
deriving DecidableEq

inductive GameError where
  | OutOfBoundsError (x y : Nat)
  | RepeatMoveError
  | InvalidMoveError
deriving DecidableEq

/-- Source struct Game. move_count is a u8 in the source; here it is a Nat
and every increment of it is taken modulo 256 (see the header note). -/
structure Game where
  bomb_count : Nat
  board : Board
  move_count : Nat
deriving DecidableEq

/-- Outcome of one reveal step: the game goes on, is won, or is lost
(the source prints "you won" / "you died" in the latter two cases). -/
inductive MoveOutcome where
  | keepPlaying
  | won
  | lost
deriving DecidableEq

/-- Source fn surrounding_squares: the clicked position together with its
in-bounds Moore neighbours, in the push order of the Rust code. -/
def surrounding_squares (position : Position) (width height : Nat) : List Position :=
  [position]
    ++ (if 0 < position.x then
          [{ x := position.x - 1, y := position.y }]
            ++ (if 0 < position.y then [{ x := position.x - 1, y := position.y - 1 }] else [])
            ++ (if position.y < height - 1 then [{ x := position.x - 1, y := position.y + 1 }] else [])
        else [])
    ++ (if position.x < width - 1 then
          [{ x := position.x + 1, y := position.y }]
            ++ (if 0 < position.y then [{ x := position.x + 1, y := position.y - 1 }] else [])
            ++ (if position.y < height - 1 then [{ x := position.x + 1, y := position.y + 1 }] else [])
        else [])
    ++ (if 0 < position.y then [{ x := position.x, y := position.y - 1 }] else [])
    ++ (if position.y < height - 1 then [{ x := position.x, y := position.y + 1 }] else [])

/-- Source Board::index_from_position: (y * height) + x. -/
def Board.index_from_position (board : Board) (position : Position) : Nat :=
  position.y * board.height + position.x

/-- Source Board::position_from_index: x = index mod height, y = index div height. -/
def Board.position_from_index (board : Board) (index : Nat) : Position :=
  { x := index % board.height, y := index / board.height }

def Board.surrounding_squares_positions (board : Board) (position : Position) : List Position :=
  surrounding_squares position board.width board.height

def Board.surrounding_squares_indexes (board : Board) (index : Nat) : List Nat :=
  (board.surrounding_squares_positions (board.position_from_index index)).map
    (fun position => board.index_from_position position)

/-- Indexing self.board.squares[i]; none models the index-out-of-range abort. -/
def readSquare (board : Board) (index : Nat) : Option SquareState :=
  board.squares[index]?

def writeSquare (board : Board) (index : Nat) (s : SquareState) : Board :=
  { board with squares := board.squares.set index s }

/-- Reading a list of square indexes left to right, aborting at the first
out-of-range index. -/
def readSquareList (board : Board) : List Nat → Option (List SquareState)
  | [] => some []
  | index :: rest =>
    match readSquare board index, readSquareList board rest with
    | some s, some ss => some (s :: ss)
    | _, _ => none

def isBomb (s : SquareState) : Bool :=
  match s with
  | SquareState.Bomb => true
  | _ => false

def isUncovered (s : SquareState) : Bool :=
  match s with
  | SquareState.Uncovered => true
  | _ => false

/-- Source Board::surrounding_bombs_from_index: count of Bomb squares among
the surrounding indexes. -/
def Board.surrounding_bombs_from_index (board : Board) (index : Nat) : Option Nat :=
  (readSquareList board (board.surrounding_squares_indexes index)).map
    (fun states => (states.filter isBomb).length)

/-- Source Board::contains: x in 0..width and y in 0..height. -/
def Board.contains (board : Board) (position : Position) : Bool :=
  decide (position.x < board.width) && decide (position.y < board.height)

/-- Source Game::clear_safe_square, as the loop body over a list of indexes
still to process: a non-Uncovered square is set to Uncovered, and if it then
has zero surrounding bombs the recursion descends into its surroundings.
The extra fuel argument makes the recursion structural. -/
def clearGo : Nat → Board → List Nat → Option Board
  | _, board, [] => some board
  | 0, _, _ :: _ => none
  | fuel + 1, board, clear_index :: rest =>
    match readSquare board clear_index with
    | none => none
    | some SquareState.Uncovered => clearGo fuel board rest
    | some _ =>
      let board1 := writeSquare board clear_index SquareState.Uncovered
      match board1.surrounding_bombs_from_index clear_index with
      | none => none
      | some n =>
        if n = 0 then
          match clearGo fuel board1 (board1.surrounding_squares_indexes clear_index) with
          | none => none
          | some board2 => clearGo fuel board2 rest
        else clearGo fuel board1 rest

/-- Source Game::clear_safe_squares, as the loop over the listed indexes:
every Uncovered square with zero surrounding bombs starts a clear_safe_square
run. -/
def clearScan : Nat → Board → List Nat → Option Board
  | _, board, [] => some board
  | 0, _, _ :: _ => none
  | fuel + 1, board, index :: rest =>
    match readSquare board index with
    | none => none
    | some SquareState.Uncovered =>
      match board.surrounding_bombs_from_index index with
      | none => none
      | some n =>
        if n = 0 then
          match clearGo fuel board (board.surrounding_squares_indexes index) with
          | none => none
          | some board1 => clearScan fuel board1 rest
        else clearScan fuel board rest
    | some _ => clearScan fuel board rest

/-- Fuel that is far larger than the number of steps any flood fill on the
board can take (each square is uncovered at most once, and each of the at
most 2 * width * height + 1 loop activations walks at most nine indexes). -/
def floodFuel (board : Board) : Nat :=
  (board.width * board.height + 2) * (board.width * board.height + 2)
    * (board.width * board.height + 2)

def Board.clear_safe_squares (board : Board) : Option Board :=
  clearScan (floodFuel board) board (List.range (board.width * board.height))

/-- Source Game::check_won: true iff no square is in state Uncovered. -/
def Game.check_won (game : Game) : Bool :=
  game.board.squares.all (fun square_state => !(isUncovered square_state))

/-- Ascending insertion into a sorted list of Nat. -/
def insertSorted (x : Nat) : List Nat → List Nat
  | [] => [x]
  | y :: ys => if x ≤ y then x :: y :: ys else y :: insertSorted x ys

/-- Ascending sort of a list of Nat, modelling Vec::sort on usize values. -/
def sortNat : List Nat → List Nat
  | [] => []
  | x :: xs => insertSorted x (sortNat xs)

/-- A possible outcome of choose_multiple over the iterator 0..n when asked
for k elements: distinct values below n, min k n of them. -/
def validSample (n k : Nat) (sample : List Nat) : Prop :=
  sample.Nodup ∧ (∀ s ∈ sample, s < n) ∧ sample.length = min k n

instance (n k : Nat) (sample : List Nat) : Decidable (validSample n k sample) := by
  unfold validSample; infer_instance

/-- Source Game::start. The rng outcome is the sample parameter: the list of
unadjusted bomb indices chosen from 0..(height * width - cleared count).
Returns none when the Rust code aborts (usize underflow of the sampling
range, or an out-of-range square access during the initial flood fill). -/
def Game.start (width height bomb_count : Nat) (start_move : Position)
    (sample : List Nat) : Option (Except GameError Game) :=
  if ¬ (start_move.x < height) ∨ ¬ (start_move.y < width) then
    some (Except.error (GameError.OutOfBoundsError start_move.x start_move.y))
  else
    let on_height_edge := ¬ (1 ≤ start_move.x ∧ start_move.x < height - 1)
    let on_width_edge := ¬ (1 ≤ start_move.y ∧ start_move.y < width - 1)
    let cleared_square_count : Nat :=
      if on_height_edge ∧ on_width_edge then 4
      else if on_height_edge ∨ on_width_edge then 6
      else 9
    let cleared := surrounding_squares start_move width height
    if height * width < cleared_square_count then none
    else
      let cleared_indexes :=
        sortNat (cleared.map (fun position => position.y * height + position.x))
      let adjusted_bomb_position_indexes :=
        sample.map (fun bomb_index =>
          bomb_index
            + (cleared_indexes.filter (fun cleared_index => cleared_index ≤ bomb_index)).length)
      let squares :=
        (List.range (width * height)).map (fun index =>
          if index ∈ cleared_indexes then SquareState.Uncovered
          else if index ∈ adjusted_bomb_position_indexes then SquareState.Bomb
          else SquareState.Covered)
      let board : Board := { squares := squares, height := height, width := width }
      match board.clear_safe_squares with
      | none => none
      | some cleared_board =>
        some (Except.ok { bomb_count := bomb_count, board := cleared_board, move_count := 1 })

/-- Source Game::make_move_io with the I/O stripped: the reveal of one
target position. The returned Game is the mutated self (the source mutates
self in place even on the RepeatMoveError path); the Except value is the
surfaced error or outcome. none models an abort inside the move; the u8
counter update move_count += 1 is modelled as + 1 modulo 256. -/
def Game.make_move (game : Game) (target_position : Position) :
    Option (Game × Except GameError MoveOutcome) :=
  if !(game.board.contains target_position) then
    some (game, Except.error GameError.InvalidMoveError)
  else
    let move_square_index := game.board.index_from_position target_position
    match readSquare game.board move_square_index with
    | none => none
    | some move_square_state =>
      let game1 := { game with move_count := (game.move_count + 1) % 256 }
      match move_square_state with
      | SquareState.Bomb => some (game1, Except.ok MoveOutcome.lost)
      | SquareState.Uncovered => some (game1, Except.error GameError.RepeatMoveError)
      | SquareState.Covered =>
        let board1 := writeSquare game1.board move_square_index SquareState.Uncovered
        match board1.clear_safe_squares with
        | none => none
        | some board2 =>
          let game2 := { game1 with board := board2 }
          if game2.check_won then some (game2, Except.ok MoveOutcome.won)
          else some (game2, Except.ok MoveOutcome.keepPlaying)

/-- Concrete 3 by 3 board whose nine squares are all Uncovered; this is the
board of the game produced by start 3 3 0 at first move (1,1). -/
def board9 : Board := { squares := List.replicate 9 SquareState.Uncovered, height := 3, width := 3 }

/-- The game produced by start 3 3 0 at first move (1,1) with an empty sample. -/
def game9 : Game := { bomb_count := 0, board := board9, move_count := 1 }

/-- Concrete non-square board: height 2, width 3, all squares Covered. -/
def board2x3 : Board := { squares := List.replicate 6 SquareState.Covered, height := 2, width := 3 }

/-- A 1 by 1 board holding a single Bomb square. -/
def bombBoard : Board := { squares := [SquareState.Bomb], height := 1, width := 1 }

/-- A game on bombBoard, one move made so far. -/
def bombGame : Game := { bomb_count := 1, board := bombBoard, move_count := 1 }

/-- A 3 by 3 game whose nine squares are all Covered. -/
def coveredGame9 : Game :=
  { bomb_count := 0,
    board := { squares := List.replicate 9 SquareState.Covered, height := 3, width := 3 },
    move_count := 1 }

theorem readSquare_lt_length {board : Board} {i : Nat} {s : SquareState}
    (h : readSquare board i = some s) : i < board.squares.length := by
  by_contra hn
  rw [readSquare, List.getElem?_eq_none_iff.mpr (Nat.le_of_not_lt hn)] at h
  exact Option.noConfusion h

theorem readSquare_write_self {board : Board} {i : Nat} {s : SquareState}
    (h : i < board.squares.length) :
    readSquare (writeSquare board i s) i = some s := by
  simp [readSquare, writeSquare, List.getElem?_set_eq_of_lt s h]

theorem readSquare_write_ne {board : Board} {i j : Nat} {s : SquareState}
    (h : i ≠ j) : readSquare (writeSquare board i s) j = readSquare board j := by
  simp [readSquare, writeSquare, List.getElem?_set_ne h]

theorem readSquare_write_uncovered {board : Board} {c i : Nat}
    (h : readSquare board i = some SquareState.Uncovered) :
    readSquare (writeSquare board c SquareState.Uncovered) i = some SquareState.Uncovered := by
  by_cases hci : c = i
  · subst hci
    exact readSquare_write_self (readSquare_lt_length h)
  · rw [readSquare_write_ne hci, h]

theorem clearGo_dims :
    ∀ (fuel : Nat) (board : Board) (l : List Nat) (board1 : Board),
      clearGo fuel board l = some board1 →
      board1.height = board.height ∧ board1.width = board.width ∧
        board1.squares.length = board.squares.length := by
  intro fuel
  induction fuel with
  | zero =>
    intro board l board1 h
    cases l with
    | nil => simp [clearGo] at h; simp [h.symm]
    | cons c rest => simp [clearGo] at h
  | succ fuel ih =>
    intro board l board1 h
    cases l with
    | nil => simp [clearGo] at h; simp [h.symm]
    | cons c rest =>
      rw [clearGo] at h
      split at h
      · exact Option.noConfusion h
      · obtain ⟨h1, h2, h3⟩ := ih _ _ _ h
        exact ⟨h1, h2, h3⟩
      · dsimp only at h
        split at h
        · exact Option.noConfusion h
        · split at h
          · split at h
            · exact Option.noConfusion h
            · rename_i board2 heq2
              obtain ⟨a1, a2, a3⟩ := ih _ _ _ h
              obtain ⟨b1, b2, b3⟩ := ih _ _ _ heq2
              refine ⟨?_, ?_, ?_⟩ <;> simp [a1, a2, a3, b1, b2, b3, writeSquare]
          · obtain ⟨a1, a2, a3⟩ := ih _ _ _ h
            refine ⟨?_, ?_, ?_⟩ <;> simp [a1, a2, a3, writeSquare]

theorem clearScan_dims :
    ∀ (fuel : Nat) (board : Board) (l : List Nat) (board1 : Board),
      clearScan fuel board l = some board1 →
      board1.height = board.height ∧ board1.width = board.width ∧
        board1.squares.length = board.squares.length := by
  intro fuel
  induction fuel with
  | zero =>
    intro board l board1 h
    cases l with
    | nil => simp [clearScan] at h; simp [h.symm]
    | cons c rest => simp [clearScan] at h
  | succ fuel ih =>
    intro board l board1 h
    cases l with
    | nil => simp [clearScan] at h; simp [h.symm]
    | cons c rest =>
      rw [clearScan] at h
      split at h
      · exact Option.noConfusion h
      · split at h
        · exact Option.noConfusion h
        · split at h
          · split at h
            · exact Option.noConfusion h
            · rename_i board2 heq2
              obtain ⟨a1, a2, a3⟩ := ih _ _ _ h
              obtain ⟨b1, b2, b3⟩ := clearGo_dims _ _ _ _ heq2
              exact ⟨a1.trans b1, a2.trans b2, a3.trans b3⟩
          · exact ih _ _ _ h
      · exact ih _ _ _ h

theorem clearGo_mono :
    ∀ (fuel : Nat) (board : Board) (l : List Nat) (board1 : Board),
      clearGo fuel board l = some board1 →
      ∀ i, readSquare board i = some SquareState.Uncovered →
        readSquare board1 i = some SquareState.Uncovered := by
  intro fuel
  induction fuel with
  | zero =>
    intro board l board1 h
    cases l with
    | nil => simp [clearGo] at h; subst h; exact fun i hi => hi
    | cons c rest => simp [clearGo] at h
  | succ fuel ih =>
    intro board l board1 h
    cases l with
    | nil => simp [clearGo] at h; subst h; exact fun i hi => hi
    | cons c rest =>
      rw [clearGo] at h
      split at h
      · exact Option.noConfusion h
      · exact fun i hi => ih _ _ _ h i hi
      · dsimp only at h
        split at h
        · exact Option.noConfusion h
        · split at h
          · split at h
            · exact Option.noConfusion h
            · rename_i board2 heq2
              intro i hi
              exact ih _ _ _ h i (ih _ _ _ heq2 i (readSquare_write_uncovered hi))
          · intro i hi
            exact ih _ _ _ h i (readSquare_write_uncovered hi)

theorem clearScan_mono :
    ∀ (fuel : Nat) (board : Board) (l : List Nat) (board1 : Board),
      clearScan fuel board l = some board1 →
      ∀ i, readSquare board i = some SquareState.Uncovered →
        readSquare board1 i = some SquareState.Uncovered := by
  intro fuel
  induction fuel with
  | zero =>
    intro board l board1 h
    cases l with
    | nil => simp [clearScan] at h; subst h; exact fun i hi => hi
    | cons c rest => simp [clearScan] at h
  | succ fuel ih =>
    intro board l board1 h
    cases l with
    | nil => simp [clearScan] at h; subst h; exact fun i hi => hi
    | cons c rest =>
      rw [clearScan] at h
      split at h
      · exact Option.noConfusion h
      · split at h
        · exact Option.noConfusion h
        · split at h
          · split at h
            · exact Option.noConfusion h
            · rename_i board2 heq2
              exact fun i hi => ih _ _ _ h i (clearGo_mono _ _ _ _ heq2 i hi)
          · exact fun i hi => ih _ _ _ h i hi
      · exact fun i hi => ih _ _ _ h i hi

theorem readSquareList_mem_some {board : Board} :
    ∀ {l : List Nat} {ss : List SquareState}, readSquareList board l = some ss →
      ∀ j ∈ l, ∃ s, readSquare board j = some s ∧ s ∈ ss := by
  intro l
  induction l with
  | nil => intro ss _ j hj; exact absurd hj (List.not_mem_nil j)
  | cons i rest ih =>
    intro ss h j hj
    rw [readSquareList] at h
    rcases hri : readSquare board i with _ | s₀ <;> rw [hri] at h
    · exact Option.noConfusion h
    · rcases hrl : readSquareList board rest with _ | ss₀ <;> rw [hrl] at h
      · exact Option.noConfusion h
      · cases h
        rcases List.mem_cons.mp hj with hh | hh
        · subst hh
          exact ⟨s₀, hri, List.mem_cons_self _ _⟩
        · obtain ⟨s, hs1, hs2⟩ := ih hrl j hh
          exact ⟨s, hs1, List.mem_cons_of_mem _ hs2⟩

theorem surrounding_bombs_zero {board : Board} {index : Nat}
    (h : board.surrounding_bombs_from_index index = some 0) :
    ∀ j ∈ board.surrounding_squares_indexes index,
      readSquare board j ≠ some SquareState.Bomb := by
  rw [Board.surrounding_bombs_from_index] at h
  rcases hrl : readSquareList board (board.surrounding_squares_indexes index)
      with _ | ss <;> rw [hrl] at h
  · exact Option.noConfusion h
  · simp only [Option.map_some'] at h
    have hss : ∀ s ∈ ss, isBomb s = false := by
      have hf : ss.filter isBomb = [] :=
        List.length_eq_zero.mp (by injection h)
      intro s hs
      by_contra hb
      have : s ∈ ss.filter isBomb := List.mem_filter.mpr ⟨hs, Bool.of_not_eq_false hb⟩
      rw [hf] at this
      exact List.not_mem_nil s this
    intro j hj hbomb
    obtain ⟨s, hs1, hs2⟩ := readSquareList_mem_some hrl j hj
    rw [hs1] at hbomb
    injection hbomb with hsb
    subst hsb
    have := hss _ hs2
    exact absurd this (by simp [isBomb])

theorem readSquare_write_bomb_iff {board : Board} {c : Nat}
    (hc : readSquare board c ≠ some SquareState.Bomb) (i : Nat) :
    (readSquare (writeSquare board c SquareState.Uncovered) i = some SquareState.Bomb ↔
      readSquare board i = some SquareState.Bomb) := by
  by_cases hci : c = i
  · subst hci
    constructor
    · intro hw
      by_cases hlen : c < board.squares.length
      · rw [readSquare_write_self hlen] at hw
        exact absurd hw (by simp)
      · rw [readSquare, writeSquare] at hw
        simp only [List.set] at hw
        rw [List.getElem?_eq_none_iff.mpr (by simpa using Nat.le_of_not_lt hlen)] at hw
        exact Option.noConfusion hw
    · intro hb
      exact absurd hb hc
  · rw [readSquare_write_ne hci]

theorem clearGo_bombs :
    ∀ (fuel : Nat) (board : Board) (l : List Nat) (board1 : Board),
      clearGo fuel board l = some board1 →
      (∀ j ∈ l, readSquare board j ≠ some SquareState.Bomb) →
      ∀ i, readSquare board1 i = some SquareState.Bomb ↔
        readSquare board i = some SquareState.Bomb := by
  intro fuel
  induction fuel with
  | zero =>
    intro board l board1 h
    cases l with
    | nil => simp [clearGo] at h; subst h; exact fun _ i => Iff.rfl
    | cons c rest => simp [clearGo] at h
  | succ fuel ih =>
    intro board l board1 h hpre
    cases l with
    | nil => simp [clearGo] at h; subst h; exact fun i => Iff.rfl
    | cons c rest =>
      rw [clearGo] at h
      split at h
      · exact Option.noConfusion h
      · exact fun i => ih _ _ _ h (fun j hj => hpre j (List.mem_cons_of_mem _ hj)) i
      · dsimp only at h
        rename_i s hs hread
        have hcnb : readSquare board c ≠ some SquareState.Bomb :=
          hpre c (List.mem_cons_self _ _)
        have hw1 : ∀ i, readSquare (writeSquare board c SquareState.Uncovered) i
            = some SquareState.Bomb ↔ readSquare board i = some SquareState.Bomb :=
          readSquare_write_bomb_iff hcnb
        split at h
        · exact Option.noConfusion h
        · rename_i n hn
          split at h
          · rename_i hzero
            split at h
            · exact Option.noConfusion h
            · rename_i board2 heq2
              have hpre2 : ∀ j ∈ (writeSquare board c SquareState.Uncovered).surrounding_squares_indexes c,
                  readSquare (writeSquare board c SquareState.Uncovered) j ≠ some SquareState.Bomb := by
                have := @surrounding_bombs_zero
                  (writeSquare board c SquareState.Uncovered) c (by rw [hn, hzero])
                exact this
              have hiff2 := ih _ _ _ heq2 hpre2
              have hpre3 : ∀ j ∈ rest, readSquare board2 j ≠ some SquareState.Bomb := by
                intro j hj hb
                exact hpre j (List.mem_cons_of_mem _ hj) ((hw1 j).mp ((hiff2 j).mp hb))
              intro i
              exact Iff.trans (ih _ _ _ h hpre3 i) (Iff.trans (hiff2 i) (hw1 i))
          · have hpre3 : ∀ j ∈ rest,
                readSquare (writeSquare board c SquareState.Uncovered) j ≠ some SquareState.Bomb := by
              intro j hj hb
              exact hpre j (List.mem_cons_of_mem _ hj) ((hw1 j).mp hb)
            intro i
            exact Iff.trans (ih _ _ _ h hpre3 i) (hw1 i)

theorem clearScan_bombs :
    ∀ (fuel : Nat) (board : Board) (l : List Nat) (board1 : Board),
      clearScan fuel board l = some board1 →
      ∀ i, readSquare board1 i = some SquareState.Bomb ↔
        readSquare board i = some SquareState.Bomb := by
  intro fuel
  induction fuel with
  | zero =>
    intro board l board1 h
    cases l with
    | nil => simp [clearScan] at h; subst h; exact fun i => Iff.rfl
    | cons c rest => simp [clearScan] at h
  | succ fuel ih =>
    intro board l board1 h
    cases l with
    | nil => simp [clearScan] at h; subst h; exact fun i => Iff.rfl
    | cons c rest =>
      rw [clearScan] at h
      split at h
      · exact Option.noConfusion h
      · split at h
        · exact Option.noConfusion h
        · rename_i n hn
          split at h
          · rename_i hzero
            split at h
            · exact Option.noConfusion h
            · rename_i board2 heq2
              have hpre : ∀ j ∈ board.surrounding_squares_indexes c,
                  readSquare board j ≠ some SquareState.Bomb :=
                surrounding_bombs_zero (by rw [hn, hzero])
              intro i
              exact Iff.trans (ih _ _ _ h i) (clearGo_bombs _ _ _ _ heq2 hpre i)
          · exact ih _ _ _ h
      · exact ih _ _ _ h

theorem readSquareList_in_range {board : Board} {l : List Nat} {ss : List SquareState}
    (h : readSquareList board l = some ss) : ∀ j ∈ l, j < board.squares.length := by
  intro j hj
  obtain ⟨s, hs, _⟩ := readSquareList_mem_some h j hj
  exact readSquare_lt_length hs

theorem surrounding_bombs_in_range {board : Board} {index n : Nat}
    (h : board.surrounding_bombs_from_index index = some n) :
    ∀ j ∈ board.surrounding_squares_indexes index, j < board.squares.length := by
  rw [Board.surrounding_bombs_from_index] at h
  rcases hrl : readSquareList board (board.surrounding_squares_indexes index)
      with _ | ss <;> rw [hrl] at h
  · exact Option.noConfusion h
  · exact readSquareList_in_range hrl

theorem surrounding_squares_indexes_congr {b1 b2 : Board} (hh : b1.height = b2.height)
    (hw : b1.width = b2.width) (i : Nat) :
    b1.surrounding_squares_indexes i = b2.surrounding_squares_indexes i := by
  unfold Board.surrounding_squares_indexes Board.surrounding_squares_positions
    Board.position_from_index Board.index_from_position
  rw [hh, hw]

theorem clearScan_surr_in_range :
    ∀ (fuel : Nat) (board : Board) (l : List Nat) (board1 : Board),
      clearScan fuel board l = some board1 →
      ∀ istar ∈ l, readSquare board istar = some SquareState.Uncovered →
        ∀ j ∈ board.surrounding_squares_indexes istar, j < board.squares.length := by
  intro fuel
  induction fuel with
  | zero =>
    intro board l board1 h istar hmem
    cases l with
    | nil => exact absurd hmem (List.not_mem_nil _)
    | cons c rest => simp [clearScan] at h
  | succ fuel ih =>
    intro board l board1 h istar hmem hunc
    cases l with
    | nil => exact absurd hmem (List.not_mem_nil _)
    | cons c rest =>
      rw [clearScan] at h
      split at h
      · exact Option.noConfusion h
      · rename_i hreadc
        split at h
        · exact Option.noConfusion h
        · rename_i n hn
          split at h
          · rename_i hzero
            split at h
            · exact Option.noConfusion h
            · rename_i board2 heq2
              rcases List.mem_cons.mp hmem with hh | hh
              · subst hh
                exact surrounding_bombs_in_range hn
              · have hunc2 : readSquare board2 istar = some SquareState.Uncovered :=
                  clearGo_mono _ _ _ _ heq2 istar hunc
                have hdims := clearGo_dims _ _ _ _ heq2
                intro j hj
                have hj2 : j ∈ board2.surrounding_squares_indexes istar := by
                  rw [surrounding_squares_indexes_congr hdims.1 hdims.2.1]
                  exact hj
                have := ih _ _ _ h istar hh hunc2 j hj2
                rw [hdims.2.2] at this
                exact this
          · rcases List.mem_cons.mp hmem with hh | hh
            · subst hh
              exact surrounding_bombs_in_range hn
            · exact ih _ _ _ h istar hh hunc
      · rename_i s hs1 hs2 hreadc
        rcases List.mem_cons.mp hmem with hh | hh
        · subst hh
          rw [hunc] at hreadc
          injection hreadc with hval
          exact absurd (hs2 hval.symm) (fun f => f)
        · exact ih _ _ _ h istar hh hunc

theorem mem_insertSorted {a x : Nat} : ∀ {l : List Nat},
    (a ∈ insertSorted x l ↔ a = x ∨ a ∈ l) := by
  intro l
  induction l with
  | nil => simp [insertSorted]
  | cons y ys ih =>
    rw [insertSorted]
    split
    · simp [List.mem_cons]
    · simp only [List.mem_cons, ih]
      tauto

theorem mem_sortNat {a : Nat} : ∀ {l : List Nat}, (a ∈ sortNat l ↔ a ∈ l) := by
  intro l
  induction l with
  | nil => simp [sortNat]
  | cons x xs ih =>
    rw [sortNat]
    simp only [mem_insertSorted, List.mem_cons, ih]

theorem self_mem_surrounding_squares (p : Position) (w h : Nat) :
    p ∈ surrounding_squares p w h := by
  simp [surrounding_squares]

theorem readSquare_construct {f : Nat → SquareState} {n hh ww i : Nat} (hi : i < n) :
    readSquare { squares := (List.range n).map f, height := hh, width := ww } i
      = some (f i) := by
  rw [readSquare]
  simp [List.getElem?_map, List.getElem?_range hi]

theorem index_lt_total {x y w h : Nat} (hx : x < h) (hy : y < w) :
    y * h + x < w * h := by
  have h1 : y * h + x < (y + 1) * h := by
    have : (y + 1) * h = y * h + h := by ring
    omega
  have h2 : (y + 1) * h ≤ w * h := Nat.mul_le_mul_right h hy
  omega

theorem position_from_index_eval {b : Board} {x y : Nat} (hxh : x < b.height) :
    b.position_from_index (y * b.height + x) = { x := x, y := y } := by
  rw [Board.position_from_index]
  have hpos : 0 < b.height := by omega
  have h1 : (y * b.height + x) % b.height = x := by
    rw [Nat.mul_comm, Nat.mul_add_mod]
    exact Nat.mod_eq_of_lt hxh
  have h2 : (y * b.height + x) / b.height = y := by
    rw [Nat.mul_comm, Nat.mul_add_div hpos]
    simp [Nat.div_eq_of_lt hxh]
  rw [h1, h2]

theorem start_aux {f : Nat → SquareState} (width height : Nat) (fm : Position)
    (cleared_board : Board)
    (hxh : fm.x < height) (hyw : fm.y < width)
    (hf : ∀ p ∈ surrounding_squares fm width height,
      f (p.y * height + p.x) = SquareState.Uncovered)
    (hscan : Board.clear_safe_squares
        { squares := (List.range (width * height)).map f, height := height, width := width }
        = some cleared_board) :
    ∀ p ∈ surrounding_squares fm width height,
      readSquare cleared_board (p.y * height + p.x) = some SquareState.Uncovered := by
  intro p hp
  set b0 : Board :=
    { squares := (List.range (width * height)).map f, height := height, width := width }
    with hb0
  have hlen0 : b0.squares.length = width * height := by simp [hb0]
  have histar_lt : fm.y * height + fm.x < width * height := index_lt_total hxh hyw
  have hread0 : readSquare b0 (fm.y * height + fm.x) = some SquareState.Uncovered := by
    rw [hb0, readSquare_construct histar_lt,
      hf fm (self_mem_surrounding_squares fm width height)]
  have hposidx : b0.position_from_index (fm.y * height + fm.x) = fm := by
    have hbh : b0.height = height := by rw [hb0]
    have := @position_from_index_eval b0 fm.x fm.y (by rw [hbh]; exact hxh)
    rw [hbh] at this
    exact this
  rw [Board.clear_safe_squares] at hscan
  have hmemrange : (fm.y * height + fm.x) ∈ List.range (b0.width * b0.height) := by
    have hbw : b0.width = width := by rw [hb0]
    have hbh : b0.height = height := by rw [hb0]
    rw [hbw, hbh, List.mem_range]
    exact histar_lt
  have hinrange := clearScan_surr_in_range _ _ _ _ hscan _ hmemrange hread0
  have hpmem : (p.y * height + p.x)
      ∈ b0.surrounding_squares_indexes (fm.y * height + fm.x) := by
    rw [Board.surrounding_squares_indexes, Board.surrounding_squares_positions, hposidx]
    refine List.mem_map.mpr ⟨p, ?_, ?_⟩
    · have hbw : b0.width = width := by rw [hb0]
      have hbh : b0.height = height := by rw [hb0]
      rw [hbw, hbh]
      exact hp
    · have hbh : b0.height = height := by rw [hb0]
      rw [Board.index_from_position, hbh]
  have hplt : p.y * height + p.x < width * height := by
    have := hinrange _ hpmem
    rwa [hlen0] at this
  have hread0p : readSquare b0 (p.y * height + p.x) = some SquareState.Uncovered := by
    rw [hb0, readSquare_construct hplt, hf p hp]
  exact clearScan_mono _ _ _ _ hscan _ hread0p

theorem start_ok_inv {width height bomb_count : Nat} {fm : Position} {sample : List Nat}
    {g : Game}
    (hstart : Game.start width height bomb_count fm sample = some (Except.ok g)) :
    (fm.x < height ∧ fm.y < width) ∧
    ∃ bombsL : List Nat,
      Board.clear_safe_squares
        { squares := (List.range (width * height)).map (fun index =>
            if index ∈ sortNat (List.map (fun position => position.y * height + position.x)
                (surrounding_squares fm width height)) then SquareState.Uncovered
            else if index ∈ bombsL then SquareState.Bomb
            else SquareState.Covered),
          height := height, width := width } = some g.board ∧
      g.bomb_count = bomb_count ∧ g.move_count = 1 := by
  rw [Game.start] at hstart
  split at hstart
  · exact absurd hstart (by simp)
  · rename_i hguard
    rw [not_or, not_not, not_not] at hguard
    refine ⟨hguard, ?_⟩
    dsimp only [] at hstart
    split at hstart
    · split at hstart
      · exact Option.noConfusion hstart
      · split at hstart
        · exact Option.noConfusion hstart
        · rename_i cleared_board heq
          have hg : g = { bomb_count := bomb_count, board := cleared_board, move_count := 1 } := by
            injection hstart with h1
            injection h1 with h2
            exact h2.symm
          subst hg
          exact ⟨_, heq, rfl, rfl⟩
    · split at hstart
      · split at hstart
        · exact Option.noConfusion hstart
        · split at hstart
          · exact Option.noConfusion hstart
          · rename_i cleared_board heq
            have hg : g = { bomb_count := bomb_count, board := cleared_board, move_count := 1 } := by
              injection hstart with h1
              injection h1 with h2
              exact h2.symm
            subst hg
            exact ⟨_, heq, rfl, rfl⟩
      · split at hstart
        · exact Option.noConfusion hstart
        · split at hstart
          · exact Option.noConfusion hstart
          · rename_i cleared_board heq
            have hg : g = { bomb_count := bomb_count, board := cleared_board, move_count := 1 } := by
              injection hstart with h1
              injection h1 with h2
              exact h2.symm
            subst hg
            exact ⟨_, heq, rfl, rfl⟩

/-- Claim C1 (code bug): check_won as implemented is true iff no square is
Uncovered, not "true iff no square is Covered": the fully revealed 3 by 3 game
produced by start (no square is Covered) has check_won = false, while a board
whose squares are all Covered has check_won = true. -/
theorem check_won_inverted :
    Game.start 3 3 0 ⟨1, 1⟩ [] = some (Except.ok game9) ∧
    (∀ s ∈ game9.board.squares, s ≠ SquareState.Covered) ∧
    Game.check_won game9 = false ∧
    (∀ s ∈ coveredGame9.board.squares, s = SquareState.Covered) ∧
    Game.check_won coveredGame9 = true :=
  ⟨rfl, by decide, rfl, by decide, rfl⟩

/-- Claim C2 (code bug): with the valid rng outcome [0] on a 3 by 3 board with
first move (0,0) and bomb_count 1 (sampling range 0..5), the one-shot
adjustment maps the unadjusted index 0 to 0 + 1 = 1, which is one of the safe
indexes 0, 1, 3, 4; the construction marks that square Uncovered, so the game
holds zero Bomb squares instead of exactly bomb_count = 1. -/
theorem start_bomb_on_safe_index :
    validSample 5 1 [0] ∧
    Game.start 3 3 1 ⟨0, 0⟩ [0] =
      some (Except.ok { bomb_count := 1, board := board9, move_count := 1 }) ∧
    (board9.squares.filter isBomb).length = 0 ∧ (0 : Nat) ≠ 1 :=
  ⟨by decide, rfl, rfl, by decide⟩

/-- Claim C3 (code bug): the in-spec square instance start(3,3,1,(3,0)) does
return OutOfBounds(3,0), but the guard compares x against height and y against
width, so on the non-square 3 by 5 board the out-of-bounds first move (4,0)
(the board width is 3 ≤ 4) is not rejected: start proceeds and aborts inside
the flood fill on an out-of-range square access instead of returning the
OutOfBounds error the claim requires. -/
theorem start_bounds_guard_swapped :
    Game.start 3 3 1 ⟨3, 0⟩ [] = some (Except.error (GameError.OutOfBoundsError 3 0)) ∧
    (3 : Nat) ≤ 4 ∧
    Game.start 3 5 0 ⟨4, 0⟩ [] = none :=
  ⟨rfl, by decide, rfl⟩

/-- Claim C4 counterexample: on the reachable game game9 (start 3 3 0 at
(1,1), move_count 1), revealing the already Uncovered square (1,1) returns
RepeatMoveError but the returned game carries move_count 2, so move_count is
not left unchanged. -/
theorem make_move_repeat_counterexample :
    Game.start 3 3 0 ⟨1, 1⟩ [] = some (Except.ok game9) ∧
    game9.move_count = 1 ∧
    Game.make_move game9 ⟨1, 1⟩ =
      some ({ bomb_count := 0, board := board9, move_count := 2 },
        Except.error GameError.RepeatMoveError) ∧
    (2 : Nat) ≠ 1 :=
  ⟨rfl, rfl, rfl, by decide⟩

/-- Claim C4 (amended): revealing an in-bounds, already Uncovered square
returns the RepeatMoveError and leaves every square of the board unchanged,
but the source runs the u8 update move_count += 1 before inspecting the
square, so move_count advances to (move_count + 1) mod 256 - an increment by
exactly one whenever move_count < 255. -/
theorem make_move_repeat (game : Game) (p : Position)
    (hx : p.x < game.board.width) (hy : p.y < game.board.height)
    (hu : readSquare game.board (game.board.index_from_position p)
      = some SquareState.Uncovered) :
    Game.make_move game p =
      some ({ game with move_count := (game.move_count + 1) % 256 },
        Except.error GameError.RepeatMoveError) ∧
    (game.move_count < 255 → (game.move_count + 1) % 256 = game.move_count + 1) := by
  constructor
  · have hc : game.board.contains p = true := by
      simp [Board.contains, hx, hy]
    rw [Game.make_move, hc]
    simp only [Bool.not_true, Bool.false_eq_true, if_false]
    rw [hu]
  · intro hlt
    exact Nat.mod_eq_of_lt (by omega)

/-- Witness for make_move_repeat at the concrete game game9 and square (1,1). -/
theorem make_move_repeat_witness :
    readSquare game9.board (game9.board.index_from_position ⟨1, 1⟩)
      = some SquareState.Uncovered ∧
    Game.make_move game9 ⟨1, 1⟩ =
      some ({ game9 with move_count := (game9.move_count + 1) % 256 },
        Except.error GameError.RepeatMoveError) :=
  ⟨by decide, (make_move_repeat game9 ⟨1, 1⟩ (by decide) (by decide) (by decide)).1⟩

/-- Claim C5 counterexample: on the height 2, width 3 board, the in-bounds
position (2,0) has linear index 0 * 2 + 2 = 2, and position_from_index maps 2
back to (0,1), not (2,0). -/
theorem position_index_round_trip_counterexample :
    (2 : Nat) < board2x3.width ∧ (0 : Nat) < board2x3.height ∧
    board2x3.position_from_index (board2x3.index_from_position ⟨2, 0⟩) = ⟨0, 1⟩ ∧
    (⟨0, 1⟩ : Position) ≠ ⟨2, 0⟩ :=
  ⟨by decide, by decide, rfl, by decide⟩

/-- Claim C5 (amended): index_from_position is a left inverse of
position_from_index on every linear index below width * height, and
position_from_index inverts index_from_position on an in-bounds position
provided additionally x < height (always the case on square boards); without
that extra bound the second round trip fails, as the counterexample shows. -/
theorem index_position_round_trip (board : Board) :
    (∀ index : Nat, index < board.width * board.height →
      board.index_from_position (board.position_from_index index) = index) ∧
    (∀ p : Position, p.x < board.width → p.y < board.height → p.x < board.height →
      board.position_from_index (board.index_from_position p) = p) := by
  constructor
  · intro index _
    rw [Board.position_from_index, Board.index_from_position]
    dsimp only
    rw [Nat.mul_comm]
    exact Nat.div_add_mod index board.height
  · intro p hpx hpy hxh
    rw [Board.index_from_position]
    exact position_from_index_eval hxh

/-- Witness for index_position_round_trip on the 3 by 3 board at index 5 and
position (2,1). -/
theorem index_position_round_trip_witness :
    board9.index_from_position (board9.position_from_index 5) = 5 ∧
    board9.position_from_index (board9.index_from_position ⟨2, 1⟩) = ⟨2, 1⟩ :=
  ⟨(index_position_round_trip board9).1 5 (by decide),
   (index_position_round_trip board9).2 ⟨2, 1⟩ (by decide) (by decide) (by decide)⟩

/-- Claim C6: whenever start succeeds, every position of the safe region
(the first move and its in-bounds Moore neighbours) reads as Uncovered on the
returned board, and in particular none of them is a Bomb; this holds for every
rng sample. -/
theorem start_safe_region_revealed
    (width height bomb_count : Nat) (fm : Position) (sample : List Nat) (g : Game)
    (hW : 1 ≤ width) (hH : 1 ≤ height)
    (hx : fm.x < width) (hy : fm.y < height)
    (hbombs : bomb_count ≤ width * height - (surrounding_squares fm width height).length)
    (hstart : Game.start width height bomb_count fm sample = some (Except.ok g)) :
    ∀ p ∈ surrounding_squares fm width height,
      readSquare g.board (g.board.index_from_position p) = some SquareState.Uncovered ∧
      readSquare g.board (g.board.index_from_position p) ≠ some SquareState.Bomb := by
  obtain ⟨⟨hxh, hyw⟩, bombsL, hscan, _, _⟩ := start_ok_inv hstart
  have hmain := start_aux width height fm g.board hxh hyw
    (fun q hq => by
      rw [if_pos (mem_sortNat.mpr (List.mem_map.mpr ⟨q, hq, rfl⟩))]) hscan
  have hdimsH : g.board.height = height := by
    rw [Board.clear_safe_squares] at hscan
    exact (clearScan_dims _ _ _ _ hscan).1
  intro p hp
  have h1 := hmain p hp
  have hidx : g.board.index_from_position p = p.y * height + p.x := by
    rw [Board.index_from_position, hdimsH]
  rw [hidx]
  refine ⟨h1, ?_⟩
  rw [h1]
  intro hcon
  injection hcon with hcon2
  exact SquareState.noConfusion hcon2

/-- Witness for start_safe_region_revealed: start 3 3 0 at (1,1) succeeds and
the safe-region member (0,0) is Uncovered on the returned board. -/
theorem start_safe_region_revealed_witness :
    readSquare game9.board (game9.board.index_from_position ⟨0, 0⟩)
      = some SquareState.Uncovered ∧
    readSquare game9.board (game9.board.index_from_position ⟨0, 0⟩)
      ≠ some SquareState.Bomb :=
  start_safe_region_revealed 3 3 0 ⟨1, 1⟩ [] game9 (by decide) (by decide) (by decide)
    (by decide) (by decide) rfl ⟨0, 0⟩ (by decide)

/-- Claim C7 (code bug): start(1,1,0,(0,0)) classifies the single cell as a
Corner with cleared count 4 and evaluates 1 * 1 - 4 on usize, which
underflows, so no game is produced at all (the source carries a TODO for the
1 by 1 case); in particular start does not succeed with the cell Revealed. -/
theorem start_one_by_one_underflow : Game.start 1 1 0 ⟨0, 0⟩ [] = none := rfl

/-- Claim C8: every flood fill run (clear_safe_squares) and every reveal step
(make_move) that completes preserves the set of Bomb squares exactly - a Bomb
square is never turned into an Uncovered one - and never turns an Uncovered
square back into a Covered or Bomb one. -/
theorem flood_and_reveal_preserve_cells :
    (∀ (board board1 : Board), Board.clear_safe_squares board = some board1 →
      (∀ i, readSquare board1 i = some SquareState.Bomb ↔
        readSquare board i = some SquareState.Bomb) ∧
      (∀ i, readSquare board i = some SquareState.Uncovered →
        readSquare board1 i = some SquareState.Uncovered)) ∧
    (∀ (game : Game) (p : Position) (game1 : Game) (r : Except GameError MoveOutcome),
      Game.make_move game p = some (game1, r) →
      (∀ i, readSquare game1.board i = some SquareState.Bomb ↔
        readSquare game.board i = some SquareState.Bomb) ∧
      (∀ i, readSquare game.board i = some SquareState.Uncovered →
        readSquare game1.board i = some SquareState.Uncovered)) := by
  constructor
  · intro board board1 h
    rw [Board.clear_safe_squares] at h
    exact ⟨clearScan_bombs _ _ _ _ h, clearScan_mono _ _ _ _ h⟩
  · intro game p game1 r h
    rw [Game.make_move] at h
    dsimp only [] at h
    split at h
    · injection h with h1
      have hg : game1 = game := (congrArg Prod.fst h1).symm
      subst hg
      exact ⟨fun i => Iff.rfl, fun i hi => hi⟩
    · split at h
      · exact Option.noConfusion h
      · rename_i move_square_state hread
        split at h
        · -- Bomb case
          injection h with h1
          have hg : game1 = { game with move_count := (game.move_count + 1) % 256 } :=
            (congrArg Prod.fst h1).symm
          subst hg
          exact ⟨fun i => Iff.rfl, fun i hi => hi⟩
        · -- Uncovered case
          injection h with h1
          have hg : game1 = { game with move_count := (game.move_count + 1) % 256 } :=
            (congrArg Prod.fst h1).symm
          subst hg
          exact ⟨fun i => Iff.rfl, fun i hi => hi⟩
        · -- Covered case
          split at h
          · exact Option.noConfusion h
          · rename_i board2 hscan
            rw [Board.clear_safe_squares] at hscan
            have hcnb : readSquare game.board (game.board.index_from_position p)
                ≠ some SquareState.Bomb := by
              rw [hread]
              intro hcon
              injection hcon with hcon2
              exact SquareState.noConfusion hcon2
            have hwiff := @readSquare_write_bomb_iff game.board
              (game.board.index_from_position p) hcnb
            have hsiff := clearScan_bombs _ _ _ _ hscan
            have hsmono := clearScan_mono _ _ _ _ hscan
            have hmain : (∀ i, readSquare board2 i = some SquareState.Bomb ↔
                  readSquare game.board i = some SquareState.Bomb) ∧
                (∀ i, readSquare game.board i = some SquareState.Uncovered →
                  readSquare board2 i = some SquareState.Uncovered) := by
              constructor
              · intro i
                exact Iff.trans (hsiff i) (hwiff i)
              · intro i hi
                exact hsmono i (readSquare_write_uncovered hi)
            split at h
            · injection h with h1
              have hg : game1 =
                  { bomb_count := game.bomb_count, board := board2,
                    move_count := (game.move_count + 1) % 256 } :=
                (congrArg Prod.fst h1).symm
              subst hg
              exact hmain
            · injection h with h1
              have hg : game1 =
                  { bomb_count := game.bomb_count, board := board2,
                    move_count := (game.move_count + 1) % 256 } :=
                (congrArg Prod.fst h1).symm
              subst hg
              exact hmain

/-- Witness for flood_and_reveal_preserve_cells: the losing move on the 1 by 1
bomb game completes, and the bomb square is a Bomb afterwards iff it was one
before. -/
theorem flood_and_reveal_preserve_cells_witness :
    Game.make_move bombGame ⟨0, 0⟩ =
      some ({ bomb_count := 1, board := bombBoard, move_count := 2 },
        Except.ok MoveOutcome.lost) ∧
    (readSquare ({ bomb_count := 1, board := bombBoard, move_count := 2 } : Game).board 0
        = some SquareState.Bomb ↔
      readSquare bombGame.board 0 = some SquareState.Bomb) :=
  ⟨rfl, (flood_and_reveal_preserve_cells.2 bombGame ⟨0, 0⟩
      { bomb_count := 1, board := bombBoard, move_count := 2 }
      (Except.ok MoveOutcome.lost) rfl).1 0⟩

/-- Claim C9 counterexample: at the reachable counter value 255 (repeat moves
also increment the counter, so 255 is reached by repeating a revealed square),
revealing the Bomb on the 1 by 1 bomb board returns the lost outcome with the
board untouched, but the u8 counter wraps to 0: move_count is not incremented
by exactly one (255 + 1 = 256 is not a u8 value; a debug build aborts here
instead of wrapping). -/
theorem make_move_bomb_wrap_counterexample :
    Game.make_move { bomb_count := 1, board := bombBoard, move_count := 255 } ⟨0, 0⟩ =
      some ({ bomb_count := 1, board := bombBoard, move_count := 0 },
        Except.ok MoveOutcome.lost) ∧
    (255 : Nat) + 1 = 256 ∧ (0 : Nat) ≠ 256 :=
  ⟨rfl, rfl, by decide⟩

/-- Claim C9 (amended): revealing an in-bounds position whose square is a Bomb
returns the lost outcome, leaves the board (in particular the Bomb square)
unchanged, and advances move_count to (move_count + 1) mod 256 - an increment
by exactly one whenever move_count < 255. -/
theorem make_move_bomb_lost (game : Game) (p : Position)
    (hx : p.x < game.board.width) (hy : p.y < game.board.height)
    (hb : readSquare game.board (game.board.index_from_position p) = some SquareState.Bomb) :
    Game.make_move game p =
      some ({ game with move_count := (game.move_count + 1) % 256 },
        Except.ok MoveOutcome.lost) ∧
    (game.move_count < 255 → (game.move_count + 1) % 256 = game.move_count + 1) := by
  constructor
  · have hc : game.board.contains p = true := by
      simp [Board.contains, hx, hy]
    rw [Game.make_move, hc]
    simp only [Bool.not_true, Bool.false_eq_true, if_false]
    rw [hb]
  · intro hlt
    exact Nat.mod_eq_of_lt (by omega)

/-- Witness for make_move_bomb_lost on the 1 by 1 bomb game. -/
theorem make_move_bomb_lost_witness :
    readSquare bombGame.board (bombGame.board.index_from_position ⟨0, 0⟩)
      = some SquareState.Bomb ∧
    Game.make_move bombGame ⟨0, 0⟩ =
      some ({ bombGame with move_count := (bombGame.move_count + 1) % 256 },
        Except.ok MoveOutcome.lost) :=
  ⟨by decide, (make_move_bomb_lost bombGame ⟨0, 0⟩ (by decide) (by decide) (by decide)).1⟩

/-- Claim C10 counterexample: on the 1 by 3 board the position (0,0) is a
corner (its x equals 0 and also width - 1, its y equals 0), yet
surrounding_squares returns 2 positions, not 4. -/
theorem surrounding_squares_corner_strip_counterexample :
    ((0 : Nat) = 0 ∨ (0 : Nat) = 1 - 1) ∧ ((0 : Nat) = 0 ∨ (0 : Nat) = 3 - 1) ∧
    (surrounding_squares ⟨0, 0⟩ 1 3).length = 2 ∧ (2 : Nat) ≠ 4 :=
  ⟨Or.inl rfl, Or.inl rfl, rfl, by decide⟩

/-- Claim C10 (amended): for an in-bounds p, surrounding_squares returns
exactly the in-bounds positions among p and its eight Moore neighbours; when
both dimensions are at least 2 the count is 4 on a corner, 6 on a non-corner
edge and 9 in the interior (on width-1 or height-1 strips these counts fail,
as the counterexample shows); and on the 1 by 1 board the result is exactly
the single position (0,0). -/
theorem surrounding_squares_charact (width height : Nat) (p : Position)
    (hx : p.x < width) (hy : p.y < height) :
    (∀ q : Position, q ∈ surrounding_squares p width height ↔
      (q.x < width ∧ q.y < height ∧ q.x ≤ p.x + 1 ∧ p.x ≤ q.x + 1 ∧
        q.y ≤ p.y + 1 ∧ p.y ≤ q.y + 1)) ∧
    (2 ≤ width → 2 ≤ height →
      (((p.x = 0 ∨ p.x = width - 1) ∧ (p.y = 0 ∨ p.y = height - 1)) →
        (surrounding_squares p width height).length = 4) ∧
      ((((p.x = 0 ∨ p.x = width - 1) ∧ ¬(p.y = 0 ∨ p.y = height - 1)) ∨
        (¬(p.x = 0 ∨ p.x = width - 1) ∧ (p.y = 0 ∨ p.y = height - 1))) →
        (surrounding_squares p width height).length = 6) ∧
      ((¬(p.x = 0 ∨ p.x = width - 1) ∧ ¬(p.y = 0 ∨ p.y = height - 1)) →
        (surrounding_squares p width height).length = 9)) ∧
    surrounding_squares { x := 0, y := 0 } 1 1 = [{ x := 0, y := 0 }] := by
  obtain ⟨px, py⟩ := p
  dsimp only at hx hy
  refine ⟨?_, ?_, by decide⟩
  · rintro ⟨qx, qy⟩
    rw [surrounding_squares]
    dsimp only
    split_ifs <;>
      simp only [List.mem_append, List.mem_singleton, List.mem_cons, List.not_mem_nil,
        or_false, false_or, Position.mk.injEq] <;>
      omega
  · intro hW hH
    refine ⟨?_, ?_, ?_⟩ <;> intro hcl <;> dsimp only at hcl <;>
      (rw [surrounding_squares]; dsimp only; split_ifs <;>
        simp only [List.length_append, List.length_singleton, List.length_nil] <;>
        omega)

/-- Witness for surrounding_squares_charact on the 2 by 2 board at the corner
(0,0): the diagonal neighbour (1,1) is a member, and the corner count is 4. -/
theorem surrounding_squares_charact_witness :
    ((⟨1, 1⟩ : Position) ∈ surrounding_squares ⟨0, 0⟩ 2 2) ∧
    (surrounding_squares ⟨0, 0⟩ 2 2).length = 4 :=
  ⟨((surrounding_squares_charact 2 2 ⟨0, 0⟩ (by decide) (by decide)).1 ⟨1, 1⟩).mpr
      (by decide),
   ((surrounding_squares_charact 2 2 ⟨0, 0⟩ (by decide) (by decide)).2.1 (by decide)
      (by decide)).1 (by decide)⟩

end Minesweeper
